import Mathlib

/-!
Shallow embedding of `src/lyft_trajectories/model/tl_light_predictor_intersection.py`
(a per-intersection traffic-light predictor: tokenized history builder,
valid-window selector, masked multi-task loss, Weibull decoding),
with theorems checking the natural-language specification against it.

Conventions:
* Python floats that can hold NaN/±Inf are modelled by the inductive `FVal`
  (NaN, +Inf, -Inf, or a rational); ordinary float arithmetic that the claims
  depend on only through ring operations is modelled over `ℚ`; the Weibull
  decoding formulas, which need `log`/`rpow`, are modelled over `ℝ`.
* pandas DataFrames become lists of `Row` records; dicts become association
  lists (`List (Token × ℕ)` etc.), with Python dict insertion order kept.
-/

namespace TrafficLights

/-- A raw input token (Python string). -/
abbrev Token := String

/-- One raw event of a frame: a token paired with its 4-dim one-hot type vector
(`rnn_inputs_raw` entries). -/
structure Event where
  token : Token
  tokenTypeOhe : List ℚ
  deriving Repr, DecidableEq

/-- One row of the per-intersection event table (`tl_events_df`), keeping the
columns the program reads: `rnn_inputs_raw`, `continuous_time`,
`tl_signal_classes`, `time_to_tl_change`, and the derived `valid_hist_len`. -/
structure Row where
  rnnInputsRaw : List Event
  continuousTime : Bool
  tlSignalClasses : List (ℕ × ℚ)
  timeToTlChange : List (ℕ × ℚ)
  validHistLen : ℕ
  deriving Repr, DecidableEq

/-- Default row, used only to give total `getD` access to the table. -/
def defaultRow : Row := ⟨[], false, [], [], 0⟩

/-- Constant `HIST_LEN_FRAMES = 100`. -/
def HIST_LEN_FRAMES : ℕ := 100

/-! ### Float values with IEEE special entries -/

/-- A float value as the loss/gradient code distinguishes them:
NaN, +Inf, -Inf, or a finite value (modelled as a rational). -/
inductive FVal where
  | nan : FVal
  | inf : FVal
  | ninf : FVal
  | val : ℚ → FVal
  deriving Repr, DecidableEq

/-- IEEE multiplication of a possibly-special float by a finite float
(the availability flag): NaN absorbs, `±Inf * 0 = NaN`, finite times finite
is ordinary multiplication. -/
def fmulAvail : FVal → ℚ → FVal
  | .nan, _ => .nan
  | .inf, a => if 0 < a then .inf else if a < 0 then .ninf else .nan
  | .ninf, a => if 0 < a then .ninf else if a < 0 then .inf else .nan
  | .val q, a => .val (q * a)

/-- The in-place substitution `x[isnan(x) | isinf(x)] = 0` applied entrywise:
a special value becomes `0`, a finite value is kept. -/
def replace_nan_inf : FVal → ℚ
  | .nan => 0
  | .inf => 0
  | .ninf => 0
  | .val q => q

/-- Function `torch.clamp(q, lo, hi)` on finite values. -/
def clampQ (lo hi q : ℚ) : ℚ := min hi (max lo q)

/-- Gradient hook `clip_and_replace_explosures`, registered on every
trainable parameter: it zeroes out NaN/Inf entries, then clamps to `[-0.25, 0.25]`. -/
def clip_and_replace_explosures (grad : List FVal) : List ℚ :=
  (grad.map replace_nan_inf).map (clampQ (-(1/4)) (1/4))

/-! ### Vocabulary construction (`train_vocab` / `term_freq`) -/

/-- Increment the count stored for `token` in an association list
(`term_freq[token] += 1`; no-op when the key is absent, which the program
never hits because keys of `train_vocab` and `term_freq` coincide). -/
def bumpFreq : List (Token × ℕ) → Token → List (Token × ℕ)
  | [], _ => []
  | (t, c) :: rest, token =>
      if t = token then (t, c + 1) :: rest else (t, c) :: bumpFreq rest token

/-- One step of the vocabulary-building loop: for a token occurrence, either
insert it with index `len(train_vocab)` and frequency 1, or bump its count. -/
def build_vocab_step (vt : List (Token × ℕ) × List (Token × ℕ)) (token : Token) :
    List (Token × ℕ) × List (Token × ℕ) :=
  if (vt.1.lookup token).isSome then (vt.1, bumpFreq vt.2 token)
  else (vt.1 ++ [(token, vt.1.length)], vt.2 ++ [(token, 1)])

/-- The vocabulary-building double loop over `intersection_related_inputs`
(each inner list is the token list of one row's `rnn_inputs_raw`). -/
def train_vocab_build (inputs : List (List Token)) :
    List (Token × ℕ) × List (Token × ℕ) :=
  inputs.foldl (fun vt frame => frame.foldl build_vocab_step vt) ([], [])

/-! ### The dataset (`IntersectionDataset`) -/

/-- The fields of `IntersectionDataset.__init__` that `__getitem__` reads. -/
structure DatasetCfg where
  rows : List Row
  vocab : List (Token × ℕ)
  termFreq : List (Token × ℕ)
  tlSignalIndices : List ℕ
  historyLenRecords : ℕ
  minFreq : ℕ
  deriving Repr

/-- Value `max_events_per_timestamp`: the largest `rnn_inputs_raw` length over the
whole table. -/
def max_events_per_timestamp (rows : List Row) : ℕ :=
  (rows.map (fun r => r.rnnInputsRaw.length)).foldr max 0

/-- Field `self.history_events_max = history_len_records * max_events_per_timestamp`. -/
def history_events_max (D : DatasetCfg) : ℕ :=
  D.historyLenRecords * max_events_per_timestamp D.rows

/-- Field `self.UNKNOWN_TOKEN_IDX = len(self.vocab_term_2_idx)`. -/
def UNKNOWN_TOKEN_IDX (D : DatasetCfg) : ℕ := D.vocab.length

/-- Field `self.PAD_TOKEN_IDX = len(self.vocab_term_2_idx) + 1`. -/
def PAD_TOKEN_IDX (D : DatasetCfg) : ℕ := D.vocab.length + 1

/-- The token resolution of `__getitem__`:
`vocab[token] if token in vocab and term_freq[token] >= min_freq else UNKNOWN`.
(The frequency lookup defaults to 0 on a missing key; the program only reaches
it when the key is present, since vocabulary and frequency share keys.) -/
def token_idx (D : DatasetCfg) (token : Token) : ℕ :=
  match D.vocab.lookup token with
  | some idx =>
      if D.minFreq ≤ (D.termFreq.lookup token).getD 0 then idx
      else UNKNOWN_TOKEN_IDX D
  | none => UNKNOWN_TOKEN_IDX D

/-- The history-assembly loop of `__getitem__`: walk the window frames from
earliest to the target row, keeping a `timestap` counter that starts at
`valid_hist_len + 1` and decreases by one per frame; every token of a frame
contributes its resolved index, its one-hot type vector, and the recency
weight `timestap / history_len_records`.  Returns the three parallel lists
(tokens, type vectors, weights) before padding. -/
def build_history_lists (D : DatasetCfg) (frames : List (List Event))
    (timestap : ℕ) : List ℕ × List (List ℚ) × List ℚ :=
  match frames with
  | [] => ([], [], [])
  | f :: rest =>
      let tail := build_history_lists D rest (timestap - 1)
      (f.map (fun e => token_idx D e.token) ++ tail.1,
       f.map (fun e => e.tokenTypeOhe) ++ tail.2.1,
       f.map (fun _ => (timestap : ℚ) / (D.historyLenRecords : ℚ)) ++ tail.2.2)

/-- The output of `__getitem__`. -/
structure Sample where
  tokens : List ℕ
  tokenTypeOhe : List (List ℚ)
  tokenTimesteps : List ℚ
  seqLen : ℕ
  allTrueClasses : List (ℕ × ℚ)
  allTte : List (ℕ × ℚ)
  classesAvailabilities : List (ℕ × ℚ)
  tteAvailabilities : List (ℕ × ℚ)
  deriving Repr

/-- Method `IntersectionDataset.__getitem__` is split below into its window
computation and its body (the dataset indexes `valid_indices` first; callers
pass the selected table row): slice the window
`rows[row_i - valid_hist_len .. row_i]`, build the three parallel lists,
right-pad them to `history_events_max` with the PAD index, zero 4-vectors and
zero weights, and read off labels, time-to-event values and availability
flags for the target row (sentinels 0 and 99.0).  This is
`valid_hist_len = min(history_len_records, df["valid_hist_len"].iloc[row_i])`. -/
def getitem_vhl (D : DatasetCfg) (row_i : ℕ) : ℕ :=
  min D.historyLenRecords (D.rows.getD row_i defaultRow).validHistLen

/-- Window slice `rows[row_i - valid_hist_len : row_i + 1]` of `__getitem__`,
projected to the `rnn_inputs_raw` column. -/
def getitem_window (D : DatasetCfg) (row_i : ℕ) : List (List Event) :=
  ((D.rows.drop (row_i - getitem_vhl D row_i)).take (getitem_vhl D row_i + 1)).map
    (fun r => r.rnnInputsRaw)

/-- Body of `IntersectionDataset.__getitem__` after the window slice. -/
def getitem (D : DatasetCfg) (row_i : ℕ) : Sample :=
  let valid_hist_len := getitem_vhl D row_i
  let raw_inputs_hist := getitem_window D row_i
  let lists := build_history_lists D raw_inputs_hist (valid_hist_len + 1)
  let seq_len := lists.1.length
  let padding_len := history_events_max D - seq_len
  let known_true_classes := (D.rows.getD row_i defaultRow).tlSignalClasses
  let known_tte := (D.rows.getD row_i defaultRow).timeToTlChange
  { tokens := lists.1 ++ List.replicate padding_len (PAD_TOKEN_IDX D)
    tokenTypeOhe := lists.2.1 ++ List.replicate padding_len [0, 0, 0, 0]
    tokenTimesteps := lists.2.2 ++ List.replicate padding_len 0
    seqLen := seq_len
    allTrueClasses :=
      D.tlSignalIndices.map (fun tl => (tl, (known_true_classes.lookup tl).getD 0))
    allTte :=
      D.tlSignalIndices.map (fun tl => (tl, (known_tte.lookup tl).getD 99))
    classesAvailabilities :=
      D.tlSignalIndices.map
        (fun tl => (tl, if (known_true_classes.lookup tl).isSome then (1 : ℚ) else 0))
    tteAvailabilities :=
      D.tlSignalIndices.map
        (fun tl => (tl, if (known_tte.lookup tl).isSome then (1 : ℚ) else 0)) }

/-! ### Weibull decoding (`IntersectionModel`), over ℝ -/

/-- Method `get_weibull_quantiles`: `λ * (-log(1 - quantile)) ^ (1/k)`
(`torch.pow(-log(1-q), ones_like(k)/k)`). -/
noncomputable def get_weibull_quantiles (weibull_lambda weibull_k quantile : ℝ) : ℝ :=
  weibull_lambda * (-Real.log (1 - quantile)) ^ ((1 : ℝ) / weibull_k)

/-- Method `get_weibull_mode`: compute `λ * ((k-1)/k) ^ (1/k)`, then overwrite the
entries with `k ≤ 1` by `0`. -/
noncomputable def get_weibull_mode (weibull_lambda weibull_k : ℝ) : ℝ :=
  let mode := weibull_lambda * ((weibull_k - 1) / weibull_k) ^ ((1 : ℝ) / weibull_k)
  if weibull_k ≤ 1 then 0 else mode

/-! ### Valid history length (`compute_last_valid_idx_for_seq`) -/

/-- Access `tl_events_df["continuous_time"].iloc[j]` for a possibly negative
`j` (pandas wraps a negative positional index around the end; an
out-of-range access, unreachable in this program, defaults to `false`). -/
def ilocBool (flags : List Bool) (j : ℤ) : Bool :=
  if 0 ≤ j then flags.getD j.toNat false
  else flags.getD (flags.length - (-j).toNat) false

/-- The inner `while` loop of `compute_last_valid_idx_for_seq`: starting from
`last_valid_idx = row_i`, decrement while
`row_i - last_valid_idx + 1 < HIST_LEN_FRAMES` and the continuity flag at
`last_valid_idx` holds.  The gap grows by one per iteration and the first
condition bounds it below `HIST_LEN_FRAMES`, so the loop performs fewer than
`HIST_LEN_FRAMES` iterations; `fuel = HIST_LEN_FRAMES` therefore makes this
bounded recursion equal to the unbounded loop. -/
def walkLastValid (flags : List Bool) (row_i : ℤ) : ℕ → ℤ → ℤ
  | 0, lastValidIdx => lastValidIdx
  | fuel + 1, lastValidIdx =>
      if row_i - lastValidIdx + 1 < (HIST_LEN_FRAMES : ℤ) ∧ ilocBool flags lastValidIdx then
        walkLastValid flags row_i fuel (lastValidIdx - 1)
      else lastValidIdx

/-- The per-row body of `compute_last_valid_idx_for_seq`: the value written to
the `valid_hist_len` column at `row_i` is `row_i - last_valid_idx` after the
walk. -/
def compute_valid_hist_len (flags : List Bool) (row_i : ℕ) : ℤ :=
  (row_i : ℤ) - walkLastValid flags (row_i : ℤ) HIST_LEN_FRAMES (row_i : ℤ)

/-- Specification-side reference for the walk: the number of consecutive
`true` continuity flags at positions `row_i, row_i - 1, ...` (the run of
immediately preceding continuous rows, counted from the row itself). -/
def backRun (flags : List Bool) : ℕ → ℕ
  | 0 => if flags.getD 0 false then 1 else 0
  | i + 1 => if flags.getD (i + 1) false then backRun flags i + 1 else 0

/-! ### Valid-window selector (`get_valid_indices`) -/

/-- Bit position of `is_non_empty` in the encoded pair. -/
def is_non_empty_bit : ℕ := 0

/-- Bit position of `is_time_continuous` in the encoded pair. -/
def is_time_continuous_bit : ℕ := 1

/-- Function `encode_len_continuity`: pack (has at least one record, is
continuous) into an integer, bit 0 and bit 1. -/
def encode_len_continuity (records_len : ℕ) (is_continuous : Bool) : ℕ :=
  (if 1 ≤ records_len then 1 <<< is_non_empty_bit else 0) +
    (if is_continuous then 1 <<< is_time_continuous_bit else 0)

/-- Function `decode_len_continuity`: recover `(is_non_empty, is_continuous)`
from the encoded integer. -/
def decode_len_continuity (num : ℕ) : Bool × Bool :=
  (num.testBit is_non_empty_bit, num.testBit is_time_continuous_bit)

/-- The backward scan of `is_nonempty_input_present`, written on the reversed
window (the Python loop runs `i = len-1, ..., 0`): on each element, first a
continuity break returns 0, then a non-empty row returns 1; an exhausted
window returns 0. -/
def scan_hist_rev : List ℕ → ℕ
  | [] => 0
  | x :: rest =>
      if !(decode_len_continuity x).2 then 0
      else if (decode_len_continuity x).1 then 1
      else scan_hist_rev rest

/-- Function `is_nonempty_input_present` applied to one rolling window. -/
def is_nonempty_input_present (hist : List ℕ) : ℕ := scan_hist_rev hist.reverse

/-- A pandas rolling window of size `w` (with `min_periods=1`) ending at
position `i`: the last `min (i+1) w` elements of `xs.take (i+1)`. -/
def rollingWindow (xs : List ℕ) (w i : ℕ) : List ℕ :=
  (xs.take (i + 1)).drop (i + 1 - w)

/-- Series `is_nonempty___is_continuious_series`: each row encoded. -/
def len_continuity_series (rows : List Row) : List ℕ :=
  rows.map (fun r => encode_len_continuity r.rnnInputsRaw.length r.continuousTime)

/-- Function `get_valid_indices`: positions whose rolling window of size
`history_len_records - 1` passes the backward scan and which carry at least
one class label (or any row in inference mode). -/
def get_valid_indices (rows : List Row) (history_len_records : ℕ)
    (is_inference : Bool) : List ℕ :=
  (List.range rows.length).filter (fun i =>
    (decide (0 < (rows.getD i defaultRow).tlSignalClasses.length) || is_inference) &&
      (is_nonempty_input_present
        (rollingWindow (len_continuity_series rows) (history_len_records - 1) i) == 1))

/-- Specification-side validity of a window, following the spec's words for
the backward scan with the continuity check first: some row at backward
distance `j` from the window's end is non-empty, and every row from the
window's end back to it (that row included) is continuous. -/
def windowValidSpec (w : List ℕ) : Prop :=
  ∃ j, j < w.length ∧ (decode_len_continuity (w.reverse.getD j 0)).1 = true ∧
    ∀ k, k ≤ j → (decode_len_continuity (w.reverse.getD k 0)).2 = true

/-- The backward scan exactly as the claim words it: a non-empty row found
before *or at the same position as* a continuity break emits 1 (so the
non-empty check is made first on each row). -/
def claim_scan_rev : List ℕ → ℕ
  | [] => 0
  | x :: rest =>
      if (decode_len_continuity x).1 then 1
      else if !(decode_len_continuity x).2 then 0
      else claim_scan_rev rest

/-- The claim's version of `is_nonempty_input_present` on one window. -/
def claim_window_valid (hist : List ℕ) : ℕ := claim_scan_rev hist.reverse

/-! ### Specification-side recency weights (§4.1) -/

/-- Recency weights as the spec words them: every token of a frame at distance
`d` from the target row weighs `(d + 1) / H`.  The window lists frames
earliest-first and ends at the target row, so its head frame is at distance
`d` and the remaining frames at distances `d - 1, d - 2, ...` down to the
target row at distance 0. -/
def specRecencyWeights (window : List (List Event)) (d H : ℕ) : List ℚ :=
  match window with
  | [] => []
  | f :: rest =>
      f.map (fun _ => ((d + 1 : ℕ) : ℚ) / (H : ℚ)) ++ specRecencyWeights rest (d - 1) H

/-! ### The embedding table (`IntersectionModel.__init__`) -/

/-- Number of rows of `nn.Embedding(vocab_size + 2, embedding_dim)`:
the assigned indices, UNKNOWN and PAD. -/
def embedding_num_rows (vocab_size : ℕ) : ℕ := vocab_size + 2

/-! ### Masked multi-task loss: the three per-batch computations -/

/-- Per-signal slice of one batch, as the loss loops consume it: per-sample
binary cross-entropy values and class-availability flags, and per-sample
Weibull log-likelihood values (possibly NaN/Inf) and tte-availability flags. -/
structure SignalBatch where
  bceLoss : List ℚ
  classAvail : List ℚ
  logProb : List FVal
  tteAvail : List ℚ

/-- Accumulator of the training-loop BCE loop (`train`, first loop of the
batch body): running `(loss_bce, loss_bce_terms_count)` over the signals. -/
def train_loss_bce_acc (batch : List SignalBatch) : ℚ × ℚ :=
  batch.foldl
    (fun acc sb =>
      (acc.1 + (List.zipWith (fun l a => l * a) sb.bceLoss sb.classAvail).sum,
       acc.2 + sb.classAvail.sum))
    (0, 0)

/-- Training-loop `loss_bce` after the guard
`if loss_bce_terms_count > 0: loss_bce /= loss_bce_terms_count`. -/
def train_loss_bce (batch : List SignalBatch) : ℚ :=
  if 0 < (train_loss_bce_acc batch).2 then
    (train_loss_bce_acc batch).1 / (train_loss_bce_acc batch).2
  else (train_loss_bce_acc batch).1

/-- Accumulator of the training-loop tte loop: per signal, multiply the
log-likelihood entries by the availability flags, zero the NaN/Inf entries,
subtract the sum, and add the flags to the count. -/
def train_loss_tte_acc (batch : List SignalBatch) : ℚ × ℚ :=
  batch.foldl
    (fun acc sb =>
      (acc.1 - ((List.zipWith fmulAvail sb.logProb sb.tteAvail).map replace_nan_inf).sum,
       acc.2 + sb.tteAvail.sum))
    (0, 0)

/-- Training-loop `loss_tte_log_prob` after its `> 0` guard. -/
def train_loss_tte (batch : List SignalBatch) : ℚ :=
  if 0 < (train_loss_tte_acc batch).2 then
    (train_loss_tte_acc batch).1 / (train_loss_tte_acc batch).2
  else (train_loss_tte_acc batch).1

/-- Training batch loss: `loss = loss_bce + loss_tte_log_prob`. -/
def train_loss (batch : List SignalBatch) : ℚ :=
  train_loss_bce batch + train_loss_tte batch

/-- Validation BCE accumulator (the loop is repeated verbatim in the
validation half of `train`). -/
def val_loss_bce_acc (batch : List SignalBatch) : ℚ × ℚ :=
  batch.foldl
    (fun acc sb =>
      (acc.1 + (List.zipWith (fun l a => l * a) sb.bceLoss sb.classAvail).sum,
       acc.2 + sb.classAvail.sum))
    (0, 0)

/-- Validation `loss_bce`; the guard there is the truthiness test
`if loss_bce_terms_count:`, i.e. nonzero. -/
def val_loss_bce (batch : List SignalBatch) : ℚ :=
  if (val_loss_bce_acc batch).2 ≠ 0 then
    (val_loss_bce_acc batch).1 / (val_loss_bce_acc batch).2
  else (val_loss_bce_acc batch).1

/-- Validation tte accumulator. -/
def val_loss_tte_acc (batch : List SignalBatch) : ℚ × ℚ :=
  batch.foldl
    (fun acc sb =>
      (acc.1 - ((List.zipWith fmulAvail sb.logProb sb.tteAvail).map replace_nan_inf).sum,
       acc.2 + sb.tteAvail.sum))
    (0, 0)

/-- Validation `loss_tte_log_prob` (truthiness guard). -/
def val_loss_tte (batch : List SignalBatch) : ℚ :=
  if (val_loss_tte_acc batch).2 ≠ 0 then
    (val_loss_tte_acc batch).1 / (val_loss_tte_acc batch).2
  else (val_loss_tte_acc batch).1

/-- Validation batch loss: `loss = loss_bce + loss_tte_log_prob / 2`. -/
def val_loss (batch : List SignalBatch) : ℚ :=
  val_loss_bce batch + val_loss_tte batch / 2

/-- Prediction-evaluation BCE accumulator (the loop is repeated verbatim in
`predict` under `eval_performance`). -/
def predict_loss_bce_acc (batch : List SignalBatch) : ℚ × ℚ :=
  batch.foldl
    (fun acc sb =>
      (acc.1 + (List.zipWith (fun l a => l * a) sb.bceLoss sb.classAvail).sum,
       acc.2 + sb.classAvail.sum))
    (0, 0)

/-- Prediction-evaluation `loss_bce` (`> 0` guard). -/
def predict_loss_bce (batch : List SignalBatch) : ℚ :=
  if 0 < (predict_loss_bce_acc batch).2 then
    (predict_loss_bce_acc batch).1 / (predict_loss_bce_acc batch).2
  else (predict_loss_bce_acc batch).1

/-- Prediction-evaluation tte accumulator. -/
def predict_loss_tte_acc (batch : List SignalBatch) : ℚ × ℚ :=
  batch.foldl
    (fun acc sb =>
      (acc.1 - ((List.zipWith fmulAvail sb.logProb sb.tteAvail).map replace_nan_inf).sum,
       acc.2 + sb.tteAvail.sum))
    (0, 0)

/-- Prediction-evaluation `loss_tte_log_prob` (`> 0` guard). -/
def predict_loss_tte (batch : List SignalBatch) : ℚ :=
  if 0 < (predict_loss_tte_acc batch).2 then
    (predict_loss_tte_acc batch).1 / (predict_loss_tte_acc batch).2
  else (predict_loss_tte_acc batch).1

/-- Prediction-evaluation batch loss: `loss = loss_bce + loss_tte_log_prob`. -/
def predict_loss (batch : List SignalBatch) : ℚ :=
  predict_loss_bce batch + predict_loss_tte batch

/-! ### Concrete instances used by the §8 end-to-end check, the
counterexample and the witnesses -/

/-- A one-token row of a synthetic single-signal table. -/
def synthRow (tok : Token) (cont : Bool) (classes : List (ℕ × ℚ)) (vhl : ℕ) : Row :=
  ⟨[⟨tok, [1, 0, 0, 0]⟩], cont, classes, [], vhl⟩

/-- The §8 synthetic 3-row table: one signal (id 7), one token per row,
continuous timestamps (so the continuity flags are `[false, true, true]`,
the first row of a table having no predecessor), a label only on row 3. -/
def synthRows : List Row :=
  [synthRow "a" false [] 0, synthRow "b" true [] 1, synthRow "c" true [(7, 1)] 2]

/-- Dataset over the §8 synthetic table (vocabulary irrelevant to the token
count: every token resolves to UNKNOWN). -/
def synthD : DatasetCfg := ⟨synthRows, [], [], [7], HIST_LEN_FRAMES, 5⟩

/-- Counterexample table for the valid-window claim: a single row that is
non-empty and labeled but whose continuity flag is false. -/
def cexRows : List Row := [synthRow "a" false [(7, 1)] 0]

/-- Concrete dataset exercising token resolution: token "a" is in the
vocabulary with frequency 2 (below `min_freq = 5`), token "b" with
frequency 7. -/
def freqD : DatasetCfg :=
  ⟨[], [("a", 0), ("b", 1)], [("a", 2), ("b", 7)], [], HIST_LEN_FRAMES, 5⟩

/-- Concrete dataset whose vocabulary comes from `train_vocab_build`. -/
def vocabD : DatasetCfg :=
  ⟨synthRows, (train_vocab_build [["a"], ["b"], ["c"]]).1,
    (train_vocab_build [["a"], ["b"], ["c"]]).2, [7], HIST_LEN_FRAMES, 5⟩

/-- Concrete one-signal batch: one available class label (bce value 1/2),
one unavailable tte sample whose log-likelihood is NaN. -/
def batch1 : List SignalBatch := [⟨[1/2], [1], [.nan], [0]⟩]

/-!
## Theorems

One theorem per claim (C1–C10), preceded by the helper lemmas they share.
-/

/-- C5: the gradient sanitizer applied to every trainable parameter first
replaces every NaN or Infinity entry with zero and then clamps all entries to
`[-0.25, 0.25]`; pointwise a special entry maps to 0 and a finite entry `q`
to `min 0.25 (max (-0.25) q)`; in particular the gradient `[NaN, +Inf, 1.5]`
maps to `[0, 0, 0.25]`. -/
theorem C5_gradient_sanitizer :
    (∀ grad : List FVal,
      clip_and_replace_explosures grad =
        grad.map (fun v =>
          match v with
          | .nan => 0
          | .inf => 0
          | .ninf => 0
          | .val q => min (1/4) (max (-(1/4)) q))) ∧
    clip_and_replace_explosures [.nan, .inf, .val (3/2)] = [0, 0, 1/4] := by
  have h0 : clampQ (-(1/4)) (1/4) 0 = 0 := by
    unfold clampQ
    rw [max_eq_right (by norm_num), min_eq_right (by norm_num)]
  constructor
  · intro grad
    simp only [clip_and_replace_explosures, List.map_map]
    refine List.map_congr_left (fun v _ => ?_)
    cases v <;>
      first
        | simpa [replace_nan_inf] using h0
        | simp [replace_nan_inf, clampQ]
  · have h32 : clampQ (-(1/4)) (1/4) (3/2) = 1/4 := by
      unfold clampQ
      rw [max_eq_right (by norm_num), min_eq_left (by norm_num)]
    simp only [clip_and_replace_explosures, List.map_cons, List.map_nil,
      replace_nan_inf]
    rw [h0, h32]

/-- C9: a raw token resolves to the UNKNOWN index whenever it is absent from
the vocabulary or its recorded frequency is below `min_freq` (even if it has
an assigned vocabulary index); otherwise it resolves to its assigned index. -/
theorem C9_token_resolution (D : DatasetCfg) (token : Token) :
    (D.vocab.lookup token = none → token_idx D token = UNKNOWN_TOKEN_IDX D) ∧
    (∀ i, D.vocab.lookup token = some i →
      ((D.termFreq.lookup token).getD 0 < D.minFreq →
        token_idx D token = UNKNOWN_TOKEN_IDX D) ∧
      (D.minFreq ≤ (D.termFreq.lookup token).getD 0 → token_idx D token = i)) := by
  constructor
  · intro h
    simp only [token_idx, h]
  · intro i h
    refine ⟨fun hlt => ?_, fun hge => ?_⟩
    · simp only [token_idx, h, if_neg (not_le.mpr hlt)]
    · simp only [token_idx, h, if_pos hge]

/-- Witness for C9 on `freqD`: "a" is in the vocabulary with index 0 but has
frequency 2 < 5, so it resolves to UNKNOWN; "b" has frequency 7 ≥ 5 and
resolves to its index 1; "z" is absent and resolves to UNKNOWN. -/
theorem C9_token_resolution_witness :
    token_idx freqD "a" = UNKNOWN_TOKEN_IDX freqD ∧
    token_idx freqD "b" = 1 ∧
    token_idx freqD "z" = UNKNOWN_TOKEN_IDX freqD :=
  ⟨((C9_token_resolution freqD "a").2 0 (by decide)).1 (by decide),
   ((C9_token_resolution freqD "b").2 1 (by decide)).2 (by decide),
   (C9_token_resolution freqD "z").1 (by decide)⟩

/-- C6: the decoded Weibull mode equals `λ·((k−1)/k)^(1/k)` when `k > 1` and
equals 0 when `k ≤ 1`; in particular for `k = 1` the mode is 0, and for
`k = 2, λ = 3` the mode is `3·(0.5)^0.5`. -/
theorem C6_weibull_mode :
    (∀ weibull_k weibull_lambda : ℝ, 0 < weibull_k → 0 < weibull_lambda →
      (1 < weibull_k →
        get_weibull_mode weibull_lambda weibull_k =
          weibull_lambda * ((weibull_k - 1) / weibull_k) ^ ((1 : ℝ) / weibull_k)) ∧
      (weibull_k ≤ 1 → get_weibull_mode weibull_lambda weibull_k = 0)) ∧
    get_weibull_mode 3 1 = 0 ∧
    get_weibull_mode 3 2 = 3 * ((1 : ℝ) / 2) ^ ((1 : ℝ) / 2) := by
  refine ⟨fun k lam _ _ => ⟨fun hk => ?_, fun hk => ?_⟩, ?_, ?_⟩
  · rw [get_weibull_mode, if_neg (not_le.mpr hk)]
  · rw [get_weibull_mode, if_pos hk]
  · rw [get_weibull_mode, if_pos le_rfl]
  · rw [get_weibull_mode, if_neg (by norm_num)]
    norm_num

/-- Witness for C6 at `k = 2, λ = 3`. -/
theorem C6_weibull_mode_witness :
    (0 : ℝ) < 2 ∧ (0 : ℝ) < 3 ∧ (1 : ℝ) < 2 ∧
    get_weibull_mode 3 2 = 3 * (((2 : ℝ) - 1) / 2) ^ ((1 : ℝ) / 2) :=
  ⟨by norm_num, by norm_num, by norm_num,
   (C6_weibull_mode.1 2 3 (by norm_num) (by norm_num)).1 (by norm_num)⟩

/-- C7: the decoded Weibull quantile at probability `p` equals
`λ·(−ln(1−p))^(1/k)`; in particular for `k = 1, λ = 10, p = 0.5` it equals
`10·(−ln 0.5) = 10·ln 2`. -/
theorem C7_weibull_quantiles :
    (∀ weibull_k weibull_lambda p : ℝ, 0 < weibull_k → 0 < weibull_lambda →
      0 < p → p < 1 →
      get_weibull_quantiles weibull_lambda weibull_k p =
        weibull_lambda * (-Real.log (1 - p)) ^ ((1 : ℝ) / weibull_k)) ∧
    get_weibull_quantiles 10 1 (1/2) = 10 * Real.log 2 := by
  constructor
  · intro k lam p _ _ _ _
    rfl
  · rw [get_weibull_quantiles]
    norm_num
    rw [one_div, Real.log_inv]
    ring

/-- Witness for C7 at `k = 1, λ = 10, p = 1/2`. -/
theorem C7_weibull_quantiles_witness :
    (0 : ℝ) < 1 ∧ (0 : ℝ) < 10 ∧ (0 : ℝ) < 1/2 ∧ (1 : ℝ)/2 < 1 ∧
    get_weibull_quantiles 10 1 (1/2) =
      10 * (-Real.log (1 - 1/2)) ^ ((1 : ℝ) / 1) :=
  ⟨by norm_num, by norm_num, by norm_num, by norm_num,
   C7_weibull_quantiles.1 1 10 (1/2) (by norm_num) (by norm_num) (by norm_num)
     (by norm_num)⟩

/-- For a nonnegative position, the pandas `iloc` access is plain list
access. -/
theorem ilocBool_natCast (flags : List Bool) (j : ℕ) :
    ilocBool flags (j : ℤ) = flags.getD j false := by
  simp [ilocBool]

/-- Invariant of the backward walk: starting at position `j ≤ row_i` with gap
`row_i - j` (at most 99) and enough fuel, the walk ends
`min (99 - (row_i - j)) (backRun flags j)` positions further down.  The
hypothesis on position 0 (the first row of a table is never continuous, its
timestamp difference being undefined) keeps the walk inside the list. -/
theorem walkLastValid_eq (flags : List Bool) (row_i : ℕ)
    (h0 : flags.getD 0 false = false) :
    ∀ (fuel j : ℕ), j ≤ row_i → row_i - j ≤ 99 →
      min (99 - (row_i - j)) (backRun flags j) ≤ fuel →
      walkLastValid flags (row_i : ℤ) fuel (j : ℤ) =
        (j : ℤ) - (min (99 - (row_i - j)) (backRun flags j) : ℕ) := by
  intro fuel
  induction fuel with
  | zero =>
    intro j hj hg hf
    rw [Nat.le_zero.mp hf]
    rw [walkLastValid]
    simp
  | succ fuel ih =>
    intro j hj hg hf
    rw [walkLastValid]
    by_cases hflag : flags.getD j false = true
    · have hj1 : 1 ≤ j := by
        rcases Nat.eq_zero_or_pos j with h | h
        · rw [h, h0] at hflag
          exact absurd hflag (by simp)
        · exact h
      by_cases hgap : row_i - j ≤ 98
      · rw [if_pos ⟨by simp only [HIST_LEN_FRAMES]; push_cast; omega,
          by rw [ilocBool_natCast]; exact hflag⟩]
        obtain ⟨m, rfl⟩ : ∃ m, j = m + 1 := ⟨j - 1, by omega⟩
        have hBR : backRun flags (m + 1) = backRun flags m + 1 := by
          rw [backRun, if_pos hflag]
        rw [show ((m + 1 : ℕ) : ℤ) - 1 = (m : ℤ) by push_cast; omega]
        rw [ih m (by omega) (by omega) (by rw [hBR] at hf; omega)]
        rw [hBR]
        push_cast
        omega
      · rw [if_neg ?_]
        · rw [show min (99 - (row_i - j)) (backRun flags j) = 0 by omega]
          simp
        · intro hcond
          have hlt := hcond.1
          simp only [HIST_LEN_FRAMES] at hlt
          omega
    · have hBR : backRun flags j = 0 := by
        cases j with
        | zero => rw [backRun, if_neg hflag]
        | succ m => rw [backRun, if_neg hflag]
      rw [if_neg ?_]
      · rw [hBR]
        simp
      · intro hcond
        rw [ilocBool_natCast] at hcond
        exact hflag hcond.2

/-- C4: for every row whose continuity flag is false the computed valid
history length is 0; in general it equals the number of consecutive true
continuity flags walking backward from the row, capped at
`HIST_LEN_FRAMES - 1 = 99`, so the history window (preceding rows plus the
target row) never exceeds 100 frames.  The hypothesis records that the first
row of a table always has a false continuity flag (its timestamp difference
is undefined), which is how `continuous_time` is derived. -/
theorem C4_valid_history_length (flags : List Bool) (row_i : ℕ)
    (h0 : flags.getD 0 false = false) :
    (flags.getD row_i false = false → compute_valid_hist_len flags row_i = 0) ∧
    compute_valid_hist_len flags row_i =
      ((min (HIST_LEN_FRAMES - 1) (backRun flags row_i) : ℕ) : ℤ) ∧
    compute_valid_hist_len flags row_i + 1 ≤ (HIST_LEN_FRAMES : ℤ) := by
  have key := walkLastValid_eq flags row_i h0 HIST_LEN_FRAMES row_i le_rfl
    (by omega) (by simp only [HIST_LEN_FRAMES]; omega)
  rw [compute_valid_hist_len, key]
  simp only [Nat.sub_self, Nat.sub_zero, HIST_LEN_FRAMES]
  refine ⟨fun hfalse => ?_, by push_cast; omega, by push_cast; omega⟩
  have hBR : backRun flags row_i = 0 := by
    cases row_i with
    | zero => rw [backRun, if_neg (by rw [hfalse]; simp)]
    | succ m => rw [backRun, if_neg (by rw [hfalse]; simp)]
  rw [hBR]
  simp

/-- Witness for C4 on the flag list `[false, true, true]` at row 2: the
valid history length is `min 99 2 = 2`. -/
theorem C4_valid_history_length_witness :
    ([false, true, true].getD 0 false = false) ∧
    compute_valid_hist_len [false, true, true] 2 =
      ((min (HIST_LEN_FRAMES - 1) (backRun [false, true, true] 2) : ℕ) : ℤ) :=
  ⟨rfl, (C4_valid_history_length [false, true, true] 2 rfl).2.1⟩

/-- Characterization of the backward scan on the reversed window: it emits 1
iff some position `j` (counting from the window's end) is non-empty and every
position up to and including `j` is continuous. -/
theorem scan_hist_rev_eq_one (l : List ℕ) :
    scan_hist_rev l = 1 ↔
      ∃ j, j < l.length ∧ (decode_len_continuity (l.getD j 0)).1 = true ∧
        ∀ k, k ≤ j → (decode_len_continuity (l.getD k 0)).2 = true := by
  induction l with
  | nil => simp [scan_hist_rev]
  | cons x rest ih =>
    rw [scan_hist_rev]
    by_cases hc : (decode_len_continuity x).2 = true
    · rw [if_neg (by simp [hc])]
      by_cases hn : (decode_len_continuity x).1 = true
      · rw [if_pos hn]
        constructor
        · intro _
          refine ⟨0, by simp, by simpa using hn, fun k hk => ?_⟩
          rw [Nat.le_zero.mp hk]
          simpa using hc
        · intro _
          rfl
      · rw [if_neg hn, ih]
        constructor
        · rintro ⟨j, hj, hne, hcont⟩
          refine ⟨j + 1, by simpa using hj, by simpa using hne, fun k hk => ?_⟩
          cases k with
          | zero => simpa using hc
          | succ m => simpa using hcont m (by omega)
        · rintro ⟨j, hj, hne, hcont⟩
          cases j with
          | zero => exact absurd (by simpa using hne) hn
          | succ m =>
            refine ⟨m, by simpa using hj, by simpa using hne, fun k hk => ?_⟩
            simpa using hcont (k + 1) (by omega)
    · rw [if_pos (by simp [hc])]
      constructor
      · intro h01
        exact absurd h01 (by norm_num)
      · rintro ⟨j, hj, hne, hcont⟩
        exact absurd (by simpa using hcont 0 (Nat.zero_le j)) hc

/-- The rolling-window aggregation equals the specification-side backward
validity predicate. -/
theorem is_nonempty_input_present_eq_one (w : List ℕ) :
    is_nonempty_input_present w = 1 ↔ windowValidSpec w := by
  rw [is_nonempty_input_present, scan_hist_rev_eq_one, windowValidSpec]
  simp [List.length_reverse]

/-- C3 counterexample: on a table with a single row that has a token, a label,
and a false continuity flag, the claim's reading — a non-empty row found *at
the same position as* a continuity break emits 1 — marks row 0 a valid
training sample, but `get_valid_indices` rejects it (the code checks
continuity before non-emptiness on each row). -/
theorem C3_claim_counterexample :
    claim_window_valid
        (rollingWindow (len_continuity_series cexRows) (HIST_LEN_FRAMES - 1) 0) = 1 ∧
    0 < (cexRows.getD 0 defaultRow).tlSignalClasses.length ∧
    0 ∉ get_valid_indices cexRows HIST_LEN_FRAMES false := by
  refine ⟨by decide, by decide, by decide⟩

/-- C3 (amended): a row is a valid sample iff its backward scan — checking the
continuity flag *before* non-emptiness on each row, so a row that both breaks
continuity and carries tokens emits 0 — reaches a non-empty row strictly
before any continuity break, and the row has at least one labeled signal or
the selector runs in inference mode; moreover the §8 synthetic 3-row
single-signal table yields exactly one valid training sample (row index 2)
whose history holds 3 tokens before padding. -/
theorem C3_valid_window_selector :
    (∀ (rows : List Row) (history_len_records : ℕ) (is_inference : Bool) (i : ℕ),
      i ∈ get_valid_indices rows history_len_records is_inference ↔
        i < rows.length ∧
        (0 < (rows.getD i defaultRow).tlSignalClasses.length ∨ is_inference = true) ∧
        windowValidSpec
          (rollingWindow (len_continuity_series rows) (history_len_records - 1) i)) ∧
    get_valid_indices synthRows HIST_LEN_FRAMES false = [2] ∧
    (getitem synthD 2).seqLen = 3 := by
  refine ⟨fun rows hl inf i => ?_, by decide, by decide⟩
  simp only [get_valid_indices, List.mem_filter, List.mem_range,
    Bool.and_eq_true, Bool.or_eq_true, decide_eq_true_eq, beq_iff_eq]
  rw [is_nonempty_input_present_eq_one]

/-- The token component of the history loop flattens the window's frames in
order, resolving each token. -/
theorem build_history_lists_tokens (D : DatasetCfg) :
    ∀ (frames : List (List Event)) (t : ℕ),
      (build_history_lists D frames t).1 =
        frames.flatMap (fun f => f.map (fun e => token_idx D e.token)) := by
  intro frames
  induction frames with
  | nil => intro t; rfl
  | cons f rest ih =>
    intro t
    simp only [build_history_lists, List.flatMap_cons, ih]

/-- The type-vector component of the history loop flattens the window's
frames in order. -/
theorem build_history_lists_types (D : DatasetCfg) :
    ∀ (frames : List (List Event)) (t : ℕ),
      (build_history_lists D frames t).2.1 =
        frames.flatMap (fun f => f.map (fun e => e.tokenTypeOhe)) := by
  intro frames
  induction frames with
  | nil => intro t; rfl
  | cons f rest ih =>
    intro t
    simp only [build_history_lists, List.flatMap_cons, ih]

/-- The weight component of the history loop realizes the spec's recency
weights: starting the counter at `t ≥ `(number of frames), the head frame (at
distance `t - 1` from the target row when the window has exactly `t` frames)
gets weight `t / H`, and the counter decreases per frame. -/
theorem build_history_lists_weights (D : DatasetCfg) :
    ∀ (frames : List (List Event)) (t : ℕ), frames.length ≤ t →
      (build_history_lists D frames t).2.2 =
        specRecencyWeights frames (t - 1) D.historyLenRecords := by
  intro frames
  induction frames with
  | nil => intro t _; rfl
  | cons f rest ih =>
    intro t ht
    have ht1 : 1 ≤ t := le_trans (by simp) ht
    simp only [build_history_lists, specRecencyWeights]
    rw [ih (t - 1) (by simp only [List.length_cons] at ht; omega)]
    congr 1
    refine List.map_congr_left (fun e _ => ?_)
    rw [show (t - 1 + 1 : ℕ) = t by omega]

/-- All three components of the history loop are parallel: their lengths
equal the total number of events in the window. -/
theorem build_history_lists_length (D : DatasetCfg) :
    ∀ (frames : List (List Event)) (t : ℕ),
      (build_history_lists D frames t).1.length =
          (frames.map List.length).sum ∧
      (build_history_lists D frames t).2.1.length =
          (frames.map List.length).sum ∧
      (build_history_lists D frames t).2.2.length =
          (frames.map List.length).sum := by
  intro frames
  induction frames with
  | nil => intro t; exact ⟨rfl, rfl, rfl⟩
  | cons f rest ih =>
    intro t
    obtain ⟨h1, h2, h3⟩ := ih (t - 1)
    simp only [build_history_lists, List.length_append, List.length_map,
      List.map_cons, List.sum_cons]
    omega

/-- Every row of the table has at most `max_events_per_timestamp` events. -/
theorem length_le_max_events (rows : List Row) (r : Row) (hr : r ∈ rows) :
    r.rnnInputsRaw.length ≤ max_events_per_timestamp rows := by
  rw [max_events_per_timestamp]
  induction rows with
  | nil => exact absurd hr (by simp)
  | cons r0 rest ih =>
    rcases List.mem_cons.mp hr with rfl | hr
    · simp only [List.map_cons, List.foldr_cons]
      exact le_max_left _ _
    · simp only [List.map_cons, List.foldr_cons]
      exact le_trans (ih hr) (le_max_right _ _)

/-- The fields of the `__getitem__` output, written out over the history
lists (definitional unfoldings of `getitem`). -/
theorem getitem_fields (D : DatasetCfg) (row_i : ℕ) :
    (getitem D row_i).seqLen =
      (build_history_lists D (getitem_window D row_i)
        (getitem_vhl D row_i + 1)).1.length ∧
    (getitem D row_i).tokens =
      (build_history_lists D (getitem_window D row_i)
          (getitem_vhl D row_i + 1)).1 ++
        List.replicate (history_events_max D - (getitem D row_i).seqLen)
          (PAD_TOKEN_IDX D) ∧
    (getitem D row_i).tokenTypeOhe =
      (build_history_lists D (getitem_window D row_i)
          (getitem_vhl D row_i + 1)).2.1 ++
        List.replicate (history_events_max D - (getitem D row_i).seqLen)
          [0, 0, 0, 0] ∧
    (getitem D row_i).tokenTimesteps =
      (build_history_lists D (getitem_window D row_i)
          (getitem_vhl D row_i + 1)).2.2 ++
        List.replicate (history_events_max D - (getitem D row_i).seqLen) 0 :=
  ⟨rfl, rfl, rfl, rfl⟩

/-- When the target row is in range and `valid_hist_len ≤ row_i`, the window
slice holds exactly `valid_hist_len + 1` frames. -/
theorem getitem_window_length (D : DatasetCfg) (row_i : ℕ)
    (hrow : row_i < D.rows.length) (hvle : getitem_vhl D row_i ≤ row_i) :
    (getitem_window D row_i).length = getitem_vhl D row_i + 1 := by
  rw [getitem_window, List.length_map, List.length_take, List.length_drop]
  omega

/-- C2: under the reachable-state hypotheses (the target row is in range, its
`valid_hist_len` column is below the maximum window length and at most the
row position), the builder walks the window from the earliest allowed frame
to the target row inclusive; the emitted recency weights are exactly the
spec's `(d + 1) / history_len_records` for a frame at distance `d` from the
target row, and the three parallel outputs are right-padded to the fixed
capacity `history_len_records * max_events_per_timestamp` with the PAD index,
zero type vectors and zero weights respectively. -/
theorem C2_history_builder (D : DatasetCfg) (row_i : ℕ)
    (hrow : row_i < D.rows.length)
    (hv1 : (D.rows.getD row_i defaultRow).validHistLen < D.historyLenRecords)
    (hv2 : (D.rows.getD row_i defaultRow).validHistLen ≤ row_i) :
    (getitem D row_i).tokenTimesteps =
      specRecencyWeights (getitem_window D row_i) (getitem_vhl D row_i)
          D.historyLenRecords ++
        List.replicate (history_events_max D - (getitem D row_i).seqLen) 0 ∧
    (getitem D row_i).tokens =
      (getitem_window D row_i).flatMap
          (fun f => f.map (fun e => token_idx D e.token)) ++
        List.replicate (history_events_max D - (getitem D row_i).seqLen)
          (PAD_TOKEN_IDX D) ∧
    (getitem D row_i).tokenTypeOhe =
      (getitem_window D row_i).flatMap
          (fun f => f.map (fun e => e.tokenTypeOhe)) ++
        List.replicate (history_events_max D - (getitem D row_i).seqLen)
          [0, 0, 0, 0] ∧
    (getitem D row_i).seqLen ≤ history_events_max D ∧
    (getitem D row_i).tokens.length = history_events_max D ∧
    (getitem D row_i).tokenTypeOhe.length = history_events_max D ∧
    (getitem D row_i).tokenTimesteps.length = history_events_max D := by
  have hvle : getitem_vhl D row_i ≤ row_i := le_trans (min_le_right _ _) hv2
  have hwinlen : (getitem_window D row_i).length = getitem_vhl D row_i + 1 :=
    getitem_window_length D row_i hrow hvle
  have hlen := build_history_lists_length D (getitem_window D row_i)
    (getitem_vhl D row_i + 1)
  have hwts := build_history_lists_weights D (getitem_window D row_i)
    (getitem_vhl D row_i + 1) (le_of_eq hwinlen)
  have hmincol : getitem_vhl D row_i ≤ (D.rows.getD row_i defaultRow).validHistLen :=
    min_le_right _ _
  have hseq : (build_history_lists D (getitem_window D row_i)
      (getitem_vhl D row_i + 1)).1.length ≤ history_events_max D := by
    rw [hlen.1, history_events_max]
    have hbound : ∀ x ∈ (getitem_window D row_i).map List.length,
        x ≤ max_events_per_timestamp D.rows := by
      intro x hx
      obtain ⟨f, hf, rfl⟩ := List.mem_map.mp hx
      obtain ⟨r, hr, rfl⟩ := List.mem_map.mp (by rw [getitem_window] at hf; exact hf)
      exact length_le_max_events D.rows r
        (List.mem_of_mem_drop (List.mem_of_mem_take hr))
    have hstep := List.sum_le_card_nsmul _ _ hbound
    rw [smul_eq_mul, List.length_map, hwinlen] at hstep
    have hwin_le : getitem_vhl D row_i + 1 ≤ D.historyLenRecords := by omega
    exact le_trans hstep (Nat.mul_le_mul_right _ hwin_le)
  obtain ⟨hfseq, hftok, hftyp, hfwts⟩ := getitem_fields D row_i
  rw [show getitem_vhl D row_i + 1 - 1 = getitem_vhl D row_i from rfl] at hwts
  refine ⟨?_, ?_, ?_, ?_, ?_, ?_, ?_⟩
  · rw [hfwts, hwts]
  · rw [hftok, build_history_lists_tokens]
  · rw [hftyp, build_history_lists_types]
  · rw [hfseq]
    exact hseq
  · rw [hftok, hfseq, List.length_append, List.length_replicate]
    omega
  · rw [hftyp, hfseq, List.length_append, List.length_replicate, hlen.2.1, ← hlen.1]
    omega
  · rw [hfwts, hfseq, List.length_append, List.length_replicate, hlen.2.2, ← hlen.1]
    omega

/-- Witness for C2 on the §8 synthetic dataset at row 2. -/
theorem C2_history_builder_witness :
    2 < synthD.rows.length ∧
    (synthD.rows.getD 2 defaultRow).validHistLen < synthD.historyLenRecords ∧
    (synthD.rows.getD 2 defaultRow).validHistLen ≤ 2 ∧
    (getitem synthD 2).tokenTimesteps =
      specRecencyWeights (getitem_window synthD 2) (getitem_vhl synthD 2)
          synthD.historyLenRecords ++
        List.replicate (history_events_max synthD - (getitem synthD 2).seqLen) 0 :=
  ⟨by decide, by decide, by decide,
   (C2_history_builder synthD 2 (by decide) (by decide) (by decide)).1⟩

/-- A successful association-list lookup comes from a member pair. -/
theorem lookup_mem {l : List (Token × ℕ)} {t : Token} {i : ℕ}
    (h : l.lookup t = some i) : (t, i) ∈ l := by
  induction l with
  | nil => exact absurd h (by simp [List.lookup])
  | cons p rest ih =>
    obtain ⟨k, b⟩ := p
    rw [List.lookup] at h
    cases hkb : (t == k) with
    | true =>
      rw [hkb] at h
      have hb : b = i := by simpa using h
      have hk : t = k := eq_of_beq hkb
      rw [← hb, ← hk]
      exact List.mem_cons_self _ _
    | false =>
      rw [hkb] at h
      exact List.mem_cons_of_mem _ (ih h)

/-- One vocabulary-building step preserves the invariant that every assigned
index is below the vocabulary size. -/
theorem build_vocab_step_invariant (vt : List (Token × ℕ) × List (Token × ℕ))
    (token : Token) (h : ∀ p ∈ vt.1, p.2 < vt.1.length) :
    ∀ p ∈ (build_vocab_step vt token).1, p.2 < (build_vocab_step vt token).1.length := by
  rw [build_vocab_step]
  by_cases hc : (vt.1.lookup token).isSome
  · rw [if_pos hc]
    exact h
  · rw [if_neg hc]
    intro p hp
    simp only [List.length_append, List.length_cons, List.length_nil]
    rcases List.mem_append.mp hp with hp | hp
    · exact lt_of_lt_of_le (h p hp) (by omega)
    · have : p = (token, vt.1.length) := by simpa using hp
      rw [this]
      omega

/-- The inner fold over a frame's tokens preserves the index invariant. -/
theorem foldl_vocab_step_invariant (frame : List Token) :
    ∀ vt, (∀ p ∈ vt.1, p.2 < vt.1.length) →
      ∀ p ∈ (frame.foldl build_vocab_step vt).1,
        p.2 < (frame.foldl build_vocab_step vt).1.length := by
  induction frame with
  | nil => intro vt h; exact h
  | cons tok rest ih =>
    intro vt h
    exact ih _ (build_vocab_step_invariant vt tok h)

/-- Every index assigned by `train_vocab` is below the vocabulary size. -/
theorem train_vocab_build_values_lt (inputs : List (List Token)) :
    ∀ p ∈ (train_vocab_build inputs).1, p.2 < (train_vocab_build inputs).1.length := by
  rw [train_vocab_build]
  have aux : ∀ (l : List (List Token)) (init : List (Token × ℕ) × List (Token × ℕ)),
      (∀ p ∈ init.1, p.2 < init.1.length) →
      ∀ p ∈ (l.foldl (fun vt frame => frame.foldl build_vocab_step vt) init).1,
        p.2 < (l.foldl (fun vt frame => frame.foldl build_vocab_step vt) init).1.length := by
    intro l
    induction l with
    | nil => intro init h; exact h
    | cons frame rest ih =>
      intro init h
      exact ih _ (foldl_vocab_step_invariant frame init h)
  exact aux inputs ([], []) (by simp)

/-- Token resolution stays below the embedding-table size whenever every
assigned index is below the vocabulary size. -/
theorem token_idx_lt (D : DatasetCfg)
    (hvals : ∀ p ∈ D.vocab, p.2 < D.vocab.length) (tok : Token) :
    token_idx D tok < D.vocab.length + 2 := by
  cases hl : D.vocab.lookup tok with
  | none =>
    simp only [token_idx, hl, UNKNOWN_TOKEN_IDX]
    omega
  | some i =>
    have hi : i < D.vocab.length := hvals _ (lookup_mem hl)
    simp only [token_idx, hl, UNKNOWN_TOKEN_IDX]
    by_cases hf : D.minFreq ≤ (D.termFreq.lookup tok).getD 0
    · rw [if_pos hf]
      omega
    · rw [if_neg hf]
      omega

/-- C10: when the dataset's vocabulary comes from `train_vocab`, every token
index emitted by `__getitem__` — assigned indices, the UNKNOWN index
`vocab_size`, and the PAD index `vocab_size + 1` used for padding — lies
below `vocab_size + 2`, the number of rows of the model's embedding table,
so the embedding lookup never receives an out-of-range index. -/
theorem C10_embedding_index_range (inputs : List (List Token)) (D : DatasetCfg)
    (hD : D.vocab = (train_vocab_build inputs).1) (row_i : ℕ) :
    UNKNOWN_TOKEN_IDX D = D.vocab.length ∧
    PAD_TOKEN_IDX D = D.vocab.length + 1 ∧
    ∀ idx ∈ (getitem D row_i).tokens, idx < embedding_num_rows D.vocab.length := by
  refine ⟨rfl, rfl, ?_⟩
  have hvals : ∀ p ∈ D.vocab, p.2 < D.vocab.length := by
    rw [hD]
    exact train_vocab_build_values_lt inputs
  intro idx hidx
  rw [(getitem_fields D row_i).2.1, List.mem_append] at hidx
  rw [embedding_num_rows]
  rcases hidx with h | h
  · rw [build_history_lists_tokens, List.mem_flatMap] at h
    obtain ⟨f, _, hf⟩ := h
    obtain ⟨e, _, rfl⟩ := List.mem_map.mp hf
    exact token_idx_lt D hvals e.token
  · rw [(List.eq_of_mem_replicate h : idx = PAD_TOKEN_IDX D), PAD_TOKEN_IDX]
    omega

/-- Witness for C10 on a dataset whose vocabulary is built from three
one-token rows. -/
theorem C10_embedding_index_range_witness :
    vocabD.vocab = (train_vocab_build [["a"], ["b"], ["c"]]).1 ∧
    ∀ idx ∈ (getitem vocabD 2).tokens,
      idx < embedding_num_rows vocabD.vocab.length :=
  ⟨rfl, (C10_embedding_index_range [["a"], ["b"], ["c"]] vocabD rfl 2).2.2⟩

/-- A fold accumulating `(+ f, + g)` over a pair computes the two sums. -/
theorem foldl_pair_add (f g : SignalBatch → ℚ) :
    ∀ (batch : List SignalBatch) (init : ℚ × ℚ),
      batch.foldl (fun acc sb => (acc.1 + f sb, acc.2 + g sb)) init =
        (init.1 + (batch.map f).sum, init.2 + (batch.map g).sum) := by
  intro batch
  induction batch with
  | nil => intro init; simp
  | cons sb rest ih =>
    intro init
    rw [List.foldl_cons, ih, List.map_cons, List.map_cons, List.sum_cons,
      List.sum_cons]
    simp only [Prod.mk.injEq]
    constructor <;> ring

/-- A fold accumulating `(- f, + g)` over a pair computes sum and difference. -/
theorem foldl_pair_sub (f g : SignalBatch → ℚ) :
    ∀ (batch : List SignalBatch) (init : ℚ × ℚ),
      batch.foldl (fun acc sb => (acc.1 - f sb, acc.2 + g sb)) init =
        (init.1 - (batch.map f).sum, init.2 + (batch.map g).sum) := by
  intro batch
  induction batch with
  | nil => intro init; simp
  | cons sb rest ih =>
    intro init
    rw [List.foldl_cons, ih, List.map_cons, List.map_cons, List.sum_cons,
      List.sum_cons]
    simp only [Prod.mk.injEq]
    constructor <;> ring

/-- The BCE accumulator of the training loop equals the pair of the summed
masked losses and the summed availability flags. -/
theorem train_loss_bce_acc_eq (batch : List SignalBatch) :
    train_loss_bce_acc batch =
      ((batch.map (fun sb =>
          (List.zipWith (fun l a => l * a) sb.bceLoss sb.classAvail).sum)).sum,
       (batch.map (fun sb => sb.classAvail.sum)).sum) := by
  rw [train_loss_bce_acc]
  rw [foldl_pair_add
    (fun sb => (List.zipWith (fun l a => l * a) sb.bceLoss sb.classAvail).sum)
    (fun sb => sb.classAvail.sum) batch (0, 0)]
  simp

/-- The tte accumulator of the training loop equals the pair of the negated
summed masked (NaN-zeroed) log-likelihoods and the summed availability
flags. -/
theorem train_loss_tte_acc_eq (batch : List SignalBatch) :
    train_loss_tte_acc batch =
      (-(batch.map (fun sb =>
          ((List.zipWith fmulAvail sb.logProb sb.tteAvail).map
            replace_nan_inf).sum)).sum,
       (batch.map (fun sb => sb.tteAvail.sum)).sum) := by
  rw [train_loss_tte_acc]
  rw [foldl_pair_sub
    (fun sb => ((List.zipWith fmulAvail sb.logProb sb.tteAvail).map
      replace_nan_inf).sum)
    (fun sb => sb.tteAvail.sum) batch (0, 0)]
  simp

/-- The validation accumulators repeat the training accumulators verbatim. -/
theorem val_loss_bce_acc_eq_train : val_loss_bce_acc = train_loss_bce_acc := rfl

/-- The validation tte accumulator repeats the training one verbatim. -/
theorem val_loss_tte_acc_eq_train : val_loss_tte_acc = train_loss_tte_acc := rfl

/-- The prediction-evaluation accumulators repeat the training ones. -/
theorem predict_loss_bce_acc_eq_train : predict_loss_bce_acc = train_loss_bce_acc := rfl

/-- The prediction-evaluation tte accumulator repeats the training one. -/
theorem predict_loss_tte_acc_eq_train : predict_loss_tte_acc = train_loss_tte_acc := rfl

/-- A list of nonnegative rationals summing to zero is identically zero. -/
theorem sum_zero_of_nonneg {l : List ℚ} (h : ∀ a ∈ l, 0 ≤ a)
    (hsum : l.sum = 0) : ∀ a ∈ l, a = 0 := by
  induction l with
  | nil => simp
  | cons x rest ih =>
    rw [List.sum_cons] at hsum
    have hx : 0 ≤ x := h x (by simp)
    have hrest : 0 ≤ rest.sum :=
      List.sum_nonneg (fun a ha => h a (List.mem_cons_of_mem _ ha))
    intro a ha
    rcases List.mem_cons.mp ha with rfl | ha
    · linarith
    · exact ih (fun b hb => h b (List.mem_cons_of_mem _ hb)) (by linarith) a ha

/-- Masked BCE contributions vanish when every availability flag is zero. -/
theorem zipWith_mul_sum_zero (ls : List ℚ) :
    ∀ as : List ℚ, (∀ a ∈ as, a = 0) →
      (List.zipWith (fun l a => l * a) ls as).sum = 0 := by
  induction ls with
  | nil => intro as _; simp
  | cons x xs ih =>
    intro as h
    cases as with
    | nil => simp
    | cons a as2 =>
      rw [List.zipWith_cons_cons, List.sum_cons, h a (by simp), mul_zero,
        zero_add]
      exact ih as2 (fun b hb => h b (List.mem_cons_of_mem _ hb))

/-- An IEEE product with a zero flag is zeroed by the NaN/Inf substitution:
finite values give `0` directly, NaN stays NaN, and `±Inf * 0 = NaN`. -/
theorem replace_fmul_zero (v : FVal) : replace_nan_inf (fmulAvail v 0) = 0 := by
  cases v <;> simp [fmulAvail, replace_nan_inf]

/-- Masked log-likelihood contributions vanish when every availability flag
is zero, whatever the raw values (NaN and Inf included). -/
theorem fmul_replace_sum_zero (vs : List FVal) :
    ∀ as : List ℚ, (∀ a ∈ as, a = 0) →
      ((List.zipWith fmulAvail vs as).map replace_nan_inf).sum = 0 := by
  induction vs with
  | nil => intro as _; simp
  | cons v vs2 ih =>
    intro as h
    cases as with
    | nil => simp
    | cons a as2 =>
      rw [List.zipWith_cons_cons, List.map_cons, List.sum_cons, h a (by simp),
        replace_fmul_zero, zero_add]
      exact ih as2 (fun b hb => h b (List.mem_cons_of_mem _ hb))

/-- C1: in the training, validation and prediction-evaluation batch loops,
the denominator used to average each masked loss term (the BCE term and the
negative Weibull log-likelihood term) equals the sum over all signals of the
per-sample availability flags of the batch; and whenever that sum is 0 the
corresponding loss term equals exactly 0 — no division is performed and the
unavailable samples contribute zero. -/
theorem C1_masked_loss_denominators (batch : List SignalBatch)
    (hclass : ∀ sb ∈ batch, ∀ a ∈ sb.classAvail, a = 0 ∨ a = 1)
    (htte : ∀ sb ∈ batch, ∀ a ∈ sb.tteAvail, a = 0 ∨ a = 1) :
    ((train_loss_bce_acc batch).2 = (batch.map (fun sb => sb.classAvail.sum)).sum ∧
     (val_loss_bce_acc batch).2 = (batch.map (fun sb => sb.classAvail.sum)).sum ∧
     (predict_loss_bce_acc batch).2 = (batch.map (fun sb => sb.classAvail.sum)).sum ∧
     (train_loss_tte_acc batch).2 = (batch.map (fun sb => sb.tteAvail.sum)).sum ∧
     (val_loss_tte_acc batch).2 = (batch.map (fun sb => sb.tteAvail.sum)).sum ∧
     (predict_loss_tte_acc batch).2 = (batch.map (fun sb => sb.tteAvail.sum)).sum) ∧
    ((batch.map (fun sb => sb.classAvail.sum)).sum = 0 →
      train_loss_bce batch = 0 ∧ val_loss_bce batch = 0 ∧
        predict_loss_bce batch = 0) ∧
    ((batch.map (fun sb => sb.tteAvail.sum)).sum = 0 →
      train_loss_tte batch = 0 ∧ val_loss_tte batch = 0 ∧
        predict_loss_tte batch = 0) := by
  have hbacc := train_loss_bce_acc_eq batch
  have htacc := train_loss_tte_acc_eq batch
  refine ⟨⟨by rw [hbacc], by rw [val_loss_bce_acc_eq_train, hbacc],
    by rw [predict_loss_bce_acc_eq_train, hbacc], by rw [htacc],
    by rw [val_loss_tte_acc_eq_train, htacc],
    by rw [predict_loss_tte_acc_eq_train, htacc]⟩, ?_, ?_⟩
  · intro hzero
    have hflags : ∀ sb ∈ batch, ∀ a ∈ sb.classAvail, a = 0 := by
      intro sb hsb a ha
      have houter : ∀ s ∈ batch.map (fun sb => sb.classAvail.sum), s = 0 :=
        sum_zero_of_nonneg
          (fun s hs => by
            obtain ⟨sb2, hsb2, rfl⟩ := List.mem_map.mp hs
            exact List.sum_nonneg (fun b hb => by
              rcases hclass sb2 hsb2 b hb with h | h <;> simp [h]))
          hzero
      have hinner : sb.classAvail.sum = 0 :=
        houter _ (List.mem_map.mpr ⟨sb, hsb, rfl⟩)
      exact sum_zero_of_nonneg
        (fun b hb => by rcases hclass sb hsb b hb with h | h <;> simp [h])
        hinner a ha
    have hnum : (train_loss_bce_acc batch).1 = 0 := by
      rw [hbacc]
      exact List.sum_eq_zero (fun x hx => by
        obtain ⟨sb, hsb, rfl⟩ := List.mem_map.mp hx
        exact zipWith_mul_sum_zero sb.bceLoss sb.classAvail (hflags sb hsb))
    have hcnt : (train_loss_bce_acc batch).2 = 0 := by rw [hbacc]; exact hzero
    refine ⟨?_, ?_, ?_⟩
    · rw [train_loss_bce, if_neg (by rw [hcnt]; exact lt_irrefl 0), hnum]
    · rw [val_loss_bce, val_loss_bce_acc_eq_train,
        if_neg (by rw [hcnt]; simp), hnum]
    · rw [predict_loss_bce, predict_loss_bce_acc_eq_train,
        if_neg (by rw [hcnt]; exact lt_irrefl 0), hnum]
  · intro hzero
    have hflags : ∀ sb ∈ batch, ∀ a ∈ sb.tteAvail, a = 0 := by
      intro sb hsb a ha
      have houter : ∀ s ∈ batch.map (fun sb => sb.tteAvail.sum), s = 0 :=
        sum_zero_of_nonneg
          (fun s hs => by
            obtain ⟨sb2, hsb2, rfl⟩ := List.mem_map.mp hs
            exact List.sum_nonneg (fun b hb => by
              rcases htte sb2 hsb2 b hb with h | h <;> simp [h]))
          hzero
      have hinner : sb.tteAvail.sum = 0 :=
        houter _ (List.mem_map.mpr ⟨sb, hsb, rfl⟩)
      exact sum_zero_of_nonneg
        (fun b hb => by rcases htte sb hsb b hb with h | h <;> simp [h])
        hinner a ha
    have hnum : (train_loss_tte_acc batch).1 = 0 := by
      rw [htacc]
      have : (batch.map (fun sb =>
          ((List.zipWith fmulAvail sb.logProb sb.tteAvail).map
            replace_nan_inf).sum)).sum = 0 :=
        List.sum_eq_zero (fun x hx => by
          obtain ⟨sb, hsb, rfl⟩ := List.mem_map.mp hx
          exact fmul_replace_sum_zero sb.logProb sb.tteAvail (hflags sb hsb))
      rw [this, neg_zero]
    have hcnt : (train_loss_tte_acc batch).2 = 0 := by rw [htacc]; exact hzero
    refine ⟨?_, ?_, ?_⟩
    · rw [train_loss_tte, if_neg (by rw [hcnt]; exact lt_irrefl 0), hnum]
    · rw [val_loss_tte, val_loss_tte_acc_eq_train,
        if_neg (by rw [hcnt]; simp), hnum]
    · rw [predict_loss_tte, predict_loss_tte_acc_eq_train,
        if_neg (by rw [hcnt]; exact lt_irrefl 0), hnum]

/-- Witness for C1 on `batch1`: the class denominator is the flag sum 1, and
the tte flag sum is 0, so the tte loss term is exactly 0 in all three
loops (its only log-likelihood entry being NaN notwithstanding). -/
theorem C1_masked_loss_denominators_witness :
    (∀ sb ∈ batch1, ∀ a ∈ sb.classAvail, a = 0 ∨ a = 1) ∧
    (∀ sb ∈ batch1, ∀ a ∈ sb.tteAvail, a = 0 ∨ a = 1) ∧
    (batch1.map (fun sb => sb.tteAvail.sum)).sum = 0 ∧
    ((train_loss_bce_acc batch1).2 =
      (batch1.map (fun sb => sb.classAvail.sum)).sum ∧
     train_loss_tte batch1 = 0 ∧ val_loss_tte batch1 = 0 ∧
     predict_loss_tte batch1 = 0) := by
  have hz : (batch1.map (fun sb => sb.tteAvail.sum)).sum = 0 := by
    simp [batch1, List.sum_cons]
  exact ⟨by decide, by decide, hz,
    (C1_masked_loss_denominators batch1 (by decide) (by decide)).1.1,
    ((C1_masked_loss_denominators batch1 (by decide) (by decide)).2.2 hz).1,
    ((C1_masked_loss_denominators batch1 (by decide) (by decide)).2.2 hz).2.1,
    ((C1_masked_loss_denominators batch1 (by decide) (by decide)).2.2 hz).2.2⟩

/-- C8: on the same batch (identical predictions, labels and availability
masks, hence identical per-sample loss values), the combined training loss is
the unweighted sum of the classification and survival terms, while the
validation loss is the classification term plus half the survival term. -/
theorem C8_train_val_loss_weighting (batch : List SignalBatch)
    (hclass : ∀ sb ∈ batch, ∀ a ∈ sb.classAvail, 0 ≤ a)
    (htte : ∀ sb ∈ batch, ∀ a ∈ sb.tteAvail, 0 ≤ a) :
    train_loss batch = train_loss_bce batch + train_loss_tte batch ∧
    val_loss batch = train_loss_bce batch + train_loss_tte batch / 2 := by
  have hbnn : 0 ≤ (train_loss_bce_acc batch).2 := by
    rw [train_loss_bce_acc_eq batch]
    exact List.sum_nonneg (fun s hs => by
      obtain ⟨sb, hsb, rfl⟩ := List.mem_map.mp hs
      exact List.sum_nonneg (fun b hb => hclass sb hsb b hb))
  have htnn : 0 ≤ (train_loss_tte_acc batch).2 := by
    rw [train_loss_tte_acc_eq batch]
    exact List.sum_nonneg (fun s hs => by
      obtain ⟨sb, hsb, rfl⟩ := List.mem_map.mp hs
      exact List.sum_nonneg (fun b hb => htte sb hsb b hb))
  have hbce : val_loss_bce batch = train_loss_bce batch := by
    rw [val_loss_bce, train_loss_bce, val_loss_bce_acc_eq_train]
    by_cases h : (train_loss_bce_acc batch).2 = 0
    · rw [if_neg (by simp [h]), if_neg (by rw [h]; exact lt_irrefl 0)]
    · rw [if_pos h, if_pos (lt_of_le_of_ne hbnn (Ne.symm h))]
  have htte2 : val_loss_tte batch = train_loss_tte batch := by
    rw [val_loss_tte, train_loss_tte, val_loss_tte_acc_eq_train]
    by_cases h : (train_loss_tte_acc batch).2 = 0
    · rw [if_neg (by simp [h]), if_neg (by rw [h]; exact lt_irrefl 0)]
    · rw [if_pos h, if_pos (lt_of_le_of_ne htnn (Ne.symm h))]
  exact ⟨rfl, by rw [val_loss, hbce, htte2]⟩

/-- Witness for C8 on `batch1`. -/
theorem C8_train_val_loss_weighting_witness :
    (∀ sb ∈ batch1, ∀ a ∈ sb.classAvail, 0 ≤ a) ∧
    (∀ sb ∈ batch1, ∀ a ∈ sb.tteAvail, 0 ≤ a) ∧
    val_loss batch1 = train_loss_bce batch1 + train_loss_tte batch1 / 2 :=
  ⟨by decide, by decide,
   (C8_train_val_loss_weighting batch1 (by decide) (by decide)).2⟩

end TrafficLights
